import Mathlib

/-!
# Verification of the live-bidding platform's real-time bidding engine

This development embeds the hot-store primitives of the live-bidding
platform (the Redis Lua scripts `place-bid.lua`, `extend-auction.lua` and
the finalization script), the cold-store workers
(`bid-persistence.worker.js`), the repository layer
(`auction.repository.js`), the bid service (`bid.service.js` /
`auction.service.js`) and the Socket.io gateway (`sockets/index.js`)
as executable Lean definitions, and proves (or refutes) the specification's
claims about them.

Conventions:
* Money amounts are modelled as exact rationals (`ℚ`); the section on
  numeric semantics additionally models the IEEE-754 double rounding that
  Lua's `tonumber` actually performs, to analyse the exact-decimal claim.
* Times are epoch seconds, modelled as `ℤ`.
* A Redis hash field that may be absent is an `Option`; the empty string
  stored by `loadAuctionToRedis` for a missing highest bidder is
  `some ""` (the Lua script treats both `nil` and `""` as "unset").
-/

namespace LiveBidding

/-- The auction hash `auction:{auctionId}` as read by the Lua scripts
(`HGETALL` + field-wise `tonumber`). Fields that the scripts guard with
`or`-fallbacks are `Option`s; the remaining fields are always written by
`AuctionService.loadAuctionToRedis` and are typed directly. -/
structure AuctionHash where
  id : String
  status : String
  seller_id : String
  starting_price : ℚ
  current_bid : Option ℚ
  bid_increment : Option ℚ
  highest_bidder_id : Option String
  total_bids : ℤ
  end_time : ℤ
  deriving Repr, DecidableEq

/-- One member of the `auction:{id}:bids` sorted set: the JSON blob
`{bidder_id, amount, time, previous_bid}` together with its ZADD score
(which `place-bid.lua` sets to the bid amount). -/
structure BidEntry where
  bidder_id : String
  amount : ℚ
  time : ℤ
  previous_bid : ℚ
  score : ℚ
  deriving Repr, DecidableEq

/-- The slice of the Redis keyspace touched by the three Lua primitives for
one auction: the auction hash, its bid-history sorted set (kept in commit
order), the TTLs set via `EXPIREAT`, and the `auctions:active` sorted set
(member ↦ score association). -/
structure RedisState where
  auction : Option AuctionHash
  bids : List BidEntry
  bidsExpiry : Option ℤ
  auctionExpiry : Option ℤ
  activeIdx : List (String × ℤ)
  deriving Repr, DecidableEq

/-- Redis `ZADD auctions:active score member`: insert or update the member's
score. -/
def zaddIdx (idx : List (String × ℤ)) (score : ℤ) (member : String) :
    List (String × ℤ) :=
  (member, score) :: idx.filter (fun p => p.1 ≠ member)

/-- Redis `ZREM auctions:active member`. -/
def zremIdx (idx : List (String × ℤ)) (member : String) :
    List (String × ℤ) :=
  idx.filter (fun p => p.1 ≠ member)

/-- Score lookup in the active-auctions index. -/
def idxScore (idx : List (String × ℤ)) (member : String) : Option ℤ :=
  (idx.find? (fun p => p.1 = member)).map (fun p => p.2)

/-- Result of `place-bid.lua`, by status code:
`1` success, `0` bid too low, `-1` ended, `-2` not found, `-3` not active,
`-4` seller cannot bid, `-5` invalid amount. Payload fields follow the
script's JSON response. -/
inductive BidResult where
  | notFound
  | invalidAmount
  | notActive (status : String)
  | ended (end_time current_time : ℤ)
  | sellerCannotBid
  | tooLow (current_bid minimum_bid your_bid : ℚ) (is_first_bid : Bool)
  | ok (current_bid : ℚ) (highest_bidder_id : String) (total_bids : ℤ)
      (previous_bid : ℚ) (previous_bidder_id : Option String)
  deriving Repr, DecidableEq

/-- Translation of `place-bid.lua`, line by line.  Arguments mirror
`(KEYS[1]; ARGV[1..4])`: the state holds the hash at `KEYS[1]`,
`amount = tonumber(ARGV[1])` (`none` when the string does not parse to a
number), `bidderId = ARGV[2]`, `currentTime = tonumber(ARGV[3])`,
`incrHint = tonumber(ARGV[4])` (the service passes `''`, i.e. `none`). -/
def placeBid (s : RedisState) (amount : Option ℚ) (bidderId : String)
    (currentTime : ℤ) (incrHint : Option ℚ) : RedisState × BidResult :=
  match s.auction with
  | none => (s, .notFound)
  | some a =>
    -- if bidIncrementInput and bidIncrementInput > 0 then ... else stored or 0
    let bidIncrement : ℚ :=
      match incrHint with
      | some i => if 0 < i then i else a.bid_increment.getD 0
      | none => a.bid_increment.getD 0
    match amount with
    | none => (s, .invalidAmount)
    | some bidAmount =>
      if bidAmount ≤ 0 then (s, .invalidAmount)
      else if a.status ≠ "active" then (s, .notActive a.status)
      else if a.end_time ≤ currentTime then (s, .ended a.end_time currentTime)
      else if bidderId = a.seller_id then (s, .sellerCannotBid)
      else
        -- isFirstBid = (not auction['highest_bidder_id']) or (... == '')
        let isFirstBid : Bool :=
          match a.highest_bidder_id with
          | none => true
          | some h => h = ""
        -- currentBid = tonumber(auction['current_bid']) or tonumber(auction['starting_price'])
        let currentBid : ℚ := a.current_bid.getD a.starting_price
        let minimumBid : ℚ :=
          if isFirstBid then a.starting_price else currentBid + bidIncrement
        if bidAmount < minimumBid then
          (s, .tooLow currentBid minimumBid bidAmount isFirstBid)
        else
          let previousBid := currentBid
          let previousBidder := a.highest_bidder_id
          let a' : AuctionHash :=
            { a with
              current_bid := some bidAmount
              highest_bidder_id := some bidderId
              total_bids := a.total_bids + 1 }
          let entry : BidEntry :=
            { bidder_id := bidderId, amount := bidAmount, time := currentTime
              previous_bid := previousBid, score := bidAmount }
          let s' : RedisState :=
            { s with
              auction := some a'
              bids := s.bids ++ [entry]
              bidsExpiry := some (a.end_time + 86400) }
          (s', .ok bidAmount bidderId (a.total_bids + 1) previousBid
            previousBidder)

/-! ## The admission formulas

These four definitions are the formulas shared verbatim by
`place-bid.lua` (lines 80-149) and the spec's P1 bullets; both the script
translation below and the spec's reference definition are expressed with
them. -/

/-- Formula `effectiveIncrement = incrementHint if > 0 else stored bidIncrement`
(script lines 80-85, with `or 0` as last resort when no increment is
stored). -/
def effIncrementOf (hint : Option ℚ) (stored : Option ℚ) : ℚ :=
  match hint with
  | some i => if 0 < i then i else stored.getD 0
  | none => stored.getD 0

/-- Formula "firstBid iff highestBidderId is unset" — script line 137 treats a
missing field and the empty string alike. -/
def isFirstBidOf (a : AuctionHash) : Bool :=
  match a.highest_bidder_id with
  | none => true
  | some h => h = ""

/-- The auction's current bid, falling back to the starting price
(script line 140). -/
def currentBidOf (a : AuctionHash) : ℚ :=
  a.current_bid.getD a.starting_price

/-- Formula `minimumBid = startingPrice` for a first bid, else
`currentBid + effectiveIncrement` (script lines 143-149). -/
def minimumBidOf (a : AuctionHash) (hint : Option ℚ) : ℚ :=
  if isFirstBidOf a then a.starting_price
  else currentBidOf a + effIncrementOf hint a.bid_increment

/-- The pure validation part of `place-bid.lua` (everything up to the
first `redis.call` write), returning the script's result; on the success
path it returns the OK payload the script would build. -/
def bidDecision (a : AuctionHash) (amount : Option ℚ) (bidderId : String)
    (currentTime : ℤ) (incrHint : Option ℚ) : BidResult :=
  match amount with
  | none => .invalidAmount
  | some bidAmount =>
    if bidAmount ≤ 0 then .invalidAmount
    else if a.status ≠ "active" then .notActive a.status
    else if a.end_time ≤ currentTime then .ended a.end_time currentTime
    else if bidderId = a.seller_id then .sellerCannotBid
    else if bidAmount < minimumBidOf a incrHint then
      .tooLow (currentBidOf a) (minimumBidOf a incrHint) bidAmount
        (isFirstBidOf a)
    else
      .ok bidAmount bidderId (a.total_bids + 1) (currentBidOf a)
        a.highest_bidder_id

/-- The write part of `place-bid.lua` (`HSET`, `HINCRBY`, `ZADD`,
`EXPIREAT`), applied once all checks have passed. -/
def commitBid (s : RedisState) (a : AuctionHash) (bidAmount : ℚ)
    (bidderId : String) (currentTime : ℤ) : RedisState :=
  { s with
    auction := some
      { a with
        current_bid := some bidAmount
        highest_bidder_id := some bidderId
        total_bids := a.total_bids + 1 }
    bids := s.bids ++
      [{ bidder_id := bidderId, amount := bidAmount, time := currentTime,
         previous_bid := a.current_bid.getD a.starting_price,
         score := bidAmount }]
    bidsExpiry := some (a.end_time + 86400) }

/-! ## The full Lua number domain

`tonumber(ARGV[1])` yields `nil` for an unparseable string, but C99
`strtod` (behind Lua's lexer) also accepts "inf"/"Infinity" and "nan", so
the parsed amount can be a non-finite double.  The `Option ℚ` amount of
`placeBid` covers the unparseable-or-finite cases; the definitions below
extend the validation phase to the full domain to settle what the script
does with non-finite amounts.  The hash fields are assumed finite-valued,
as `loadAuctionToRedis` writes them; a hash poisoned by a previously
accepted non-finite bid is outside this model. -/

/-- A value of Lua's number type as produced by `tonumber`: a finite
double (held exactly as a rational), one of the two infinities, or
nan. -/
inductive LuaNum where
  | num (q : ℚ)
  | inf
  | negInf
  | nan
  deriving Repr, DecidableEq

/-- Lua `x <= 0` on a parsed number — an IEEE comparison: every
comparison with nan is false, `-inf <= 0` holds, `inf <= 0` does not. -/
def LuaNum.leZero : LuaNum → Bool
  | .num q => q ≤ 0
  | .inf => false
  | .negInf => true
  | .nan => false

/-- Lua `x < r` against a finite bound — an IEEE comparison: false for
nan and `inf`, true for `-inf`. -/
def LuaNum.ltQ : LuaNum → ℚ → Bool
  | .num q, r => q < r
  | .inf, _ => false
  | .negInf, _ => true
  | .nan, _ => false

/-- Result of the validation phase over the full Lua number domain; the
amount payloads keep the parsed Lua value. -/
inductive BidResultL where
  | notFound
  | invalidAmount
  | notActive (status : String)
  | ended (end_time current_time : ℤ)
  | sellerCannotBid
  | tooLow (current_bid minimum_bid : ℚ) (your_bid : LuaNum)
      (is_first_bid : Bool)
  | ok (current_bid : LuaNum) (highest_bidder_id : String)
      (total_bids : ℤ) (previous_bid : ℚ)
      (previous_bidder_id : Option String)
  deriving Repr, DecidableEq

/-- The validation phase of `place-bid.lua` over the full Lua number
domain for `ARGV[1]`: the script's only amount check is
`not bidAmount or bidAmount <= 0` (line 88), and the TOO_LOW test
`bidAmount < minimumBid` (line 152) is an IEEE comparison — false for
nan and `inf`, so those amounts fall through to the success branch. -/
def bidDecisionL (a : AuctionHash) (amount : Option LuaNum)
    (bidderId : String) (currentTime : ℤ) (incrHint : Option ℚ) :
    BidResultL :=
  match amount with
  | none => .invalidAmount
  | some bidAmount =>
    if bidAmount.leZero then .invalidAmount
    else if a.status ≠ "active" then .notActive a.status
    else if a.end_time ≤ currentTime then .ended a.end_time currentTime
    else if bidderId = a.seller_id then .sellerCannotBid
    else if bidAmount.ltQ (minimumBidOf a incrHint) then
      .tooLow (currentBidOf a) (minimumBidOf a incrHint) bidAmount
        (isFirstBidOf a)
    else
      .ok bidAmount bidderId (a.total_bids + 1) (currentBidOf a)
        a.highest_bidder_id

/-- Embedding of the finite-domain result into the full-domain result
type. -/
def liftBidResult : BidResult → BidResultL
  | .notFound => .notFound
  | .invalidAmount => .invalidAmount
  | .notActive st => .notActive st
  | .ended e c => .ended e c
  | .sellerCannotBid => .sellerCannotBid
  | .tooLow cb mb yb f => .tooLow cb mb (.num yb) f
  | .ok cb hb tb pb pbid => .ok (.num cb) hb tb pb pbid

/-- The spec's Primitive P1 `placeBid(auctionId, amount, bidderId,
serverTime, incrementHint)`: preconditions checked in order
(NOT_FOUND, INVALID_AMOUNT, NOT_ACTIVE, ENDED, SELLER_CANNOT_BID,
TOO_LOW), and on success `currentBid := amount`, `highestBidderId :=
bidderId`, `totalBids := totalBids + 1`, append
`{bidderId, amount, serverTime, previousBid}` with score = amount to the
bid history (retained for the 24h retention window past `endTime`), and
return OK with `previousBid`, `previousBidderId`, `totalBids`. -/
def placeBidSpec (s : RedisState) (amount : Option ℚ) (bidderId : String)
    (serverTime : ℤ) (incrHint : Option ℚ) : RedisState × BidResult :=
  match s.auction with
  | none => (s, .notFound)
  | some a =>
    match amount with
    | none => (s, .invalidAmount)
    | some amt =>
      if amt ≤ 0 then (s, .invalidAmount)
      else if a.status ≠ "active" then (s, .notActive a.status)
      else if a.end_time ≤ serverTime then (s, .ended a.end_time serverTime)
      else if bidderId = a.seller_id then (s, .sellerCannotBid)
      else if amt < minimumBidOf a incrHint then
        (s, .tooLow (currentBidOf a) (minimumBidOf a incrHint) amt
          (isFirstBidOf a))
      else
        ({ s with
            auction := some
              { a with
                current_bid := some amt
                highest_bidder_id := some bidderId
                total_bids := a.total_bids + 1 }
            bids := s.bids ++
              [{ bidder_id := bidderId, amount := amt, time := serverTime
                 previous_bid := currentBidOf a, score := amt }]
            bidsExpiry := some (a.end_time + 86400) },
          .ok amt bidderId (a.total_bids + 1) (currentBidOf a)
            a.highest_bidder_id)

/-- Result of `extend-auction.lua`: `1` extended, `0` no extension needed,
`-1` not found, `-2` not active. -/
inductive ExtendResult where
  | notFound
  | notActive (status : String)
  | extended (old_end_time new_end_time extended_by time_remaining : ℤ)
  | notExtended (end_time time_remaining : ℤ)
  deriving Repr, DecidableEq

/-- Translation of `extend-auction.lua`: `ARGV = (currentServerTime, extensionThreshold,
extensionDuration)`. -/
def extendAuction (s : RedisState) (currentTime threshold duration : ℤ) :
    RedisState × ExtendResult :=
  match s.auction with
  | none => (s, .notFound)
  | some a =>
    if a.status ≠ "active" then (s, .notActive a.status)
    else
      let timeRemaining := a.end_time - currentTime
      if 0 < timeRemaining ∧ timeRemaining ≤ threshold then
        let newEndTime := a.end_time + duration
        let s' : RedisState :=
          { s with
            auction := some { a with end_time := newEndTime }
            activeIdx := zaddIdx s.activeIdx newEndTime a.id
            auctionExpiry := some (newEndTime + 86400) }
        (s', .extended a.end_time newEndTime duration timeRemaining)
      else
        (s, .notExtended a.end_time timeRemaining)

/-- Result of the finalization script: `1` finalized with winner, `0` ended
with no bids, `-1` not found, `-2` not ended yet, `-3` already finalized. -/
inductive FinalizeResult where
  | notFound
  | alreadyFinal (status : String)
  | notEnded (end_time current_time time_remaining : ℤ)
  | finalized (winner_id : String) (winning_bid : Option ℚ)
      (total_bids : ℤ) (end_time : ℤ)
  | endedNoBids (total_bids : ℤ)
  deriving Repr, DecidableEq

/-- The finalization Lua script (`finalize-auction`): `ARGV[1] =
currentServerTime`.  Note the Lua truthiness test `totalBids > 0 and
winnerId`: a present-but-empty `highest_bidder_id` string is truthy. -/
def finalizeAuction (s : RedisState) (currentTime : ℤ) :
    RedisState × FinalizeResult :=
  match s.auction with
  | none => (s, .notFound)
  | some a =>
    if a.status = "ended" then (s, .alreadyFinal a.status)
    else if currentTime < a.end_time then
      (s, .notEnded a.end_time currentTime (a.end_time - currentTime))
    else
      let totalBids := a.total_bids
      let s' : RedisState :=
        { s with
          auction := some { a with status := "ended" }
          activeIdx := zremIdx s.activeIdx a.id
          auctionExpiry := some (currentTime + 86400) }
      match a.highest_bidder_id with
      | some winnerId =>
        if 0 < totalBids then
          (s', .finalized winnerId a.current_bid totalBids a.end_time)
        else (s', .endedNoBids totalBids)
      | none => (s', .endedNoBids totalBids)

/-! ## Call sequences against the hot store (for the monotonic-price
invariant) -/

/-- One `placeBid` invocation's arguments. -/
structure BidCall where
  amount : Option ℚ
  bidderId : String
  time : ℤ
  incrHint : Option ℚ
  deriving Repr, DecidableEq

/-- Run a sequence of `placeBid` calls, threading the state. -/
def runBids (s : RedisState) : List BidCall → RedisState
  | [] => s
  | c :: cs => runBids (placeBid s c.amount c.bidderId c.time c.incrHint).1 cs

/-- The amounts of the accepted bids of a call sequence, in commit order. -/
def acceptedAmounts (s : RedisState) : List BidCall → List ℚ
  | [] => []
  | c :: cs =>
    match placeBid s c.amount c.bidderId c.time c.incrHint with
    | (s', .ok amt _ _ _ _) => amt :: acceptedAmounts s' cs
    | (s', _) => acceptedAmounts s' cs

/-- A call as the Bid Admission Service issues it: the increment hint is
`''` (or at any rate not a positive number), and the bidder id comes from
an authenticated JWT, hence is non-empty. -/
def admissionDefaultCall (c : BidCall) : Bool :=
  (match c.incrHint with
   | some i => decide (i ≤ 0)
   | none => true) && c.bidderId ≠ ""

/-- Returns `true` for a successful (status 1) bid result. -/
def isOkResult : BidResult → Bool
  | .ok _ _ _ _ _ => true
  | _ => false

/-! ## Cold store (PostgreSQL) -/

/-- A row of the `auctions` table (the columns the mirror writes touch). -/
structure ColdAuctionRow where
  id : String
  seller_id : String
  starting_price : ℚ
  current_bid : Option ℚ
  bid_increment : ℚ
  highest_bidder_id : Option String
  total_bids : ℤ
  start_time : ℤ
  end_time : ℤ
  original_end_time : ℤ
  status : String
  deriving Repr, DecidableEq

/-- The dynamic `updates` object handed to `AuctionRepository.update`:
each present key is written; `some none` writes SQL NULL. -/
structure AuctionUpdates where
  status : Option String
  current_bid : Option (Option ℚ)
  highest_bidder_id : Option (Option String)
  total_bids : Option ℤ
  end_time : Option ℤ
  deriving Repr, DecidableEq

/-- Apply an updates object to a row (the generated `SET` clause). -/
def applyUpdates (r : ColdAuctionRow) (u : AuctionUpdates) : ColdAuctionRow :=
  { r with
    status := u.status.getD r.status
    current_bid := u.current_bid.getD r.current_bid
    highest_bidder_id := u.highest_bidder_id.getD r.highest_bidder_id
    total_bids := u.total_bids.getD r.total_bids
    end_time := u.end_time.getD r.end_time }

/-- Translation of `AuctionRepository.update`: `UPDATE auctions SET … WHERE id = $n
RETURNING *`.  The `WHERE` clause filters on the id only — there is no
`status = 'active'` condition in the generated SQL.  `none` models an
absent row (`result.rows[0] || null`). -/
def auctionRepoUpdate (row : Option ColdAuctionRow) (u : AuctionUpdates) :
    Option ColdAuctionRow :=
  row.map (fun r => applyUpdates r u)

/-- A row of the append-only `bids` table.  Its primary key is a
DB-generated uuid (`id UUID PRIMARY KEY DEFAULT uuid_generate_v4()` in the
initial migration), modelled by a fresh counter; the schema declares no
natural-key uniqueness over `(auction_id, bidder_id, amount, …)`. -/
structure BidRow where
  id : ℕ
  auction_id : String
  bidder_id : String
  amount : ℚ
  bid_time : ℤ
  previous_bid : Option ℚ
  is_winning : Bool
  ip_address : Option String
  user_agent : Option String
  deriving Repr, DecidableEq

/-- The cold store touched by the persistence workers: the mirrored
auction row for the job's auction, the `bids` rows, and the uuid source. -/
structure ColdState where
  auctionRow : Option ColdAuctionRow
  bids : List BidRow
  nextBidId : ℕ
  deriving Repr, DecidableEq

/-- Translation of `BidRepository.create` (repositories, `class
BidRepository`): a plain `INSERT INTO bids (auction_id, bidder_id,
amount, bid_time, previous_bid, is_winning, ip_address, user_agent)
VALUES ($1…$8) RETURNING *`.  The `id` column is never supplied, so it
takes the table default `uuid_generate_v4()`, modelled by the fresh
counter; no other column is unique. -/
def bidRepoCreate (cs : ColdState) (auction_id bidder_id : String)
    (amount : ℚ) (bid_time : ℤ) (previous_bid : Option ℚ)
    (is_winning : Bool) (ip_address user_agent : Option String) :
    ColdState × ℕ :=
  let row : BidRow :=
    { id := cs.nextBidId, auction_id := auction_id, bidder_id := bidder_id
      amount := amount, bid_time := bid_time, previous_bid := previous_bid
      is_winning := is_winning, ip_address := ip_address
      user_agent := user_agent }
  ({ cs with bids := cs.bids ++ [row], nextBidId := cs.nextBidId + 1 },
    cs.nextBidId)

/-- Payload of a `persist-bid` job (`addBidPersistenceJob`). -/
structure PersistBidJob where
  auctionId : String
  bidderId : String
  amount : ℚ
  currentTime : ℤ
  previousBid : Option ℚ
  totalBids : ℤ
  ipAddress : Option String
  userAgent : Option String
  bidId : Option ℕ
  deriving Repr, DecidableEq

/-- The payload `BidService.placeBid` enqueues: `{auctionId, bidderId,
amount, currentTime, previousBid, totalBids, ipAddress, userAgent}` — and
nothing else; in particular no `bidId` key is ever set by the producer. -/
def enqueuedPersistBidJob (auctionId bidderId : String) (amount : ℚ)
    (currentTime : ℤ) (previousBid : Option ℚ) (totalBids : ℤ)
    (ipAddress userAgent : Option String) : PersistBidJob :=
  { auctionId := auctionId, bidderId := bidderId, amount := amount
    currentTime := currentTime, previousBid := previousBid
    totalBids := totalBids, ipAddress := ipAddress
    userAgent := userAgent, bidId := none }

/-- Translation of `processBidPersistence` (bid-persistence worker): the
existence check runs only when the payload carries a `bidId` (the lookup
is modelled as an id search; `BidRepository` in fact exposes no
`findById`, but no producer ever sets `bidId`, so the branch is dead),
then `bidRepository.create` with `is_winning: true`, then the
unconditional auction-mirror `update`. -/
def processBidPersistence (cs : ColdState) (j : PersistBidJob) : ColdState :=
  let alreadyPersisted : Bool :=
    match j.bidId with
    | some i => cs.bids.any (fun b => b.id = i)
    | none => false
  if alreadyPersisted then cs
  else
    let cs1 := (bidRepoCreate cs j.auctionId j.bidderId j.amount
      j.currentTime j.previousBid true j.ipAddress j.userAgent).1
    { cs1 with
      auctionRow := auctionRepoUpdate cs1.auctionRow
        { status := none
          current_bid := some (some j.amount)
          highest_bidder_id := some (some j.bidderId)
          total_bids := some j.totalBids
          end_time := none } }

/-- Payload of an `update-auction` (auction-mirror) job. -/
structure AuctionUpdateJob where
  auctionId : String
  currentBid : ℚ
  highestBidderId : Option String
  totalBids : ℤ
  endTime : Option ℤ
  deriving Repr, DecidableEq

/-- Translation of `processAuctionUpdate` (auction-update worker): builds the updates
object (adding `end_time` only when the job carries one) and calls
`AuctionRepository.update` — with no status condition. -/
def processAuctionUpdate (row : Option ColdAuctionRow)
    (j : AuctionUpdateJob) : Option ColdAuctionRow :=
  auctionRepoUpdate row
    { status := none
      current_bid := some (some j.currentBid)
      highest_bidder_id := some j.highestBidderId
      total_bids := some j.totalBids
      end_time := j.endTime }

/-! ## IEEE-754 double model for the admission arithmetic

`place-bid.lua` parses every amount with Lua's `tonumber`, i.e. into an
IEEE-754 binary64 double, and computes `currentBid + bidIncrement` in
double arithmetic.  A finite positive double is a dyadic rational; the
functions below compute round-to-nearest-even at 53 significand bits with
pure integer arithmetic (overflow to infinity and subnormals are outside
the magnitudes used here). -/

/-- Computes `⌊log2 n⌋` for `n ≥ 1`, by fuel-based structural recursion (fuel 1100
covers all magnitudes up to `2^1100`, far beyond the double range used). -/
def natLog2F : ℕ → ℕ → ℕ
  | 0, _ => 0
  | fuel+1, n => if n ≤ 1 then 0 else natLog2F fuel (n / 2) + 1

/-- Computes `⌈log2 n⌉` for `n ≥ 1`, fuel-based. -/
def natClog2F : ℕ → ℕ → ℕ
  | 0, _ => 0
  | fuel+1, n => if n ≤ 1 then 0 else natClog2F fuel ((n + 1) / 2) + 1

/-- A non-negative dyadic rational `m / 2^k`. -/
structure Dy where
  m : ℕ
  k : ℤ
  deriving Repr, DecidableEq

/-- Round-half-even integer division `a / b` for `b > 0`. -/
def rheDiv (a b : ℕ) : ℕ :=
  let q := a / b
  let r := a % b
  if 2 * r < b then q
  else if b < 2 * r then q + 1
  else if q % 2 = 0 then q else q + 1

/-- Computes `⌊log2 (a/b)⌋` for `a, b > 0`. -/
def ratLog2 (a b : ℕ) : ℤ :=
  if b ≤ a then (natLog2F 1100 (a / b) : ℤ)
  else -(natClog2F 1100 ((b + a - 1) / a) : ℤ)

/-- The nearest binary64 double of the positive rational `a/b`. -/
def dyOfRatPos (a b : ℕ) : Dy :=
  let e := ratLog2 a b
  let s : ℤ := 52 - e
  if 0 ≤ s then ⟨rheDiv (a * 2 ^ s.toNat) b, s⟩
  else ⟨rheDiv a (b * 2 ^ (-s).toNat), s⟩

/-- Exact sum of two dyadics. -/
def dyAdd (x y : Dy) : Dy :=
  if y.k ≤ x.k then ⟨x.m + y.m * 2 ^ (x.k - y.k).toNat, x.k⟩
  else ⟨x.m * 2 ^ (y.k - x.k).toNat + y.m, y.k⟩

/-- Round a dyadic to 53 significant bits (the double result of an
arithmetic operation). -/
def dyRound53 (x : Dy) : Dy :=
  let L := natLog2F 1100 x.m
  if L ≤ 52 then x
  else ⟨rheDiv x.m (2 ^ (L - 52)), x.k - (L - 52)⟩

/-- Exact strict comparison of dyadics (double comparison is exact). -/
def dyLT (x y : Dy) : Bool :=
  if y.k ≤ x.k then x.m < y.m * 2 ^ (x.k - y.k).toNat
  else x.m * 2 ^ (y.k - x.k).toNat < y.m

/-- Lua `tonumber` of a decimal literal with value `q > 0`: the nearest
double. -/
def dyOfRat (q : ℚ) : Dy :=
  if q ≤ 0 then ⟨0, 0⟩ else dyOfRatPos q.num.toNat q.den

/-- The admission decision of `place-bid.lua` for a non-first bid, in the
double arithmetic Lua actually performs: parse the three decimal values,
form `minimumBid = currentBid + bidIncrement` (one rounded double
addition), and accept iff `not (bidAmount < minimumBid)`. -/
def luaBidAdmits (currentBid bidIncrement amount : ℚ) : Bool :=
  !(dyLT (dyOfRat amount)
    (dyRound53 (dyAdd (dyOfRat currentBid) (dyOfRat bidIncrement))))

/-- The same decision in exact rational arithmetic (what the spec's
numeric-semantics clause prescribes). -/
def exactBidAdmits (currentBid bidIncrement amount : ℚ) : Bool :=
  if amount < currentBid + bidIncrement then false else true

/-! ## Socket.io gateway (C7 of the spec's component list) -/

/-- Messages the gateway can emit to a connection (from
`sockets/index.js` and the bid handler in `bid.socket.js`). -/
inductive GatewayMsg where
  | serverTime (t : ℤ)
  | auctionJoined (auctionId : String)
  | viewerJoined (auctionId : String) (viewerCount : ℕ)
  | auctionLeft (auctionId : String)
  | viewerLeft (auctionId : String) (viewerCount : ℕ)
  | viewerCount (auctionId : String) (count : ℕ)
  | bidAccepted (auctionId : String)
  | bidRejected (auctionId : String) (code : String)
  | bidHistory (auctionId : String)
  | errorMsg (code : String)
  deriving Repr, DecidableEq

/-- Client events a connection can send after connecting (`auction:join`,
`auction:leave`, `auction:get_viewers`, `BID_PLACED`, `GET_BID_HISTORY`);
`none` ids model payloads with the field missing. -/
inductive ClientEvent where
  | joinRoom (auctionId : Option String)
  | leaveRoom (auctionId : Option String)
  | getViewers (auctionId : String)
  | bidPlaced (auctionId : String) (rejectedCode : Option String)
  | getBidHistory (auctionId : String)
  deriving Repr, DecidableEq

/-- What the `io.on('connection')` handler in `sockets/index.js` emits to
a freshly authenticated socket before any client event: it only
initializes `socket.joinedAuctions` and registers event listeners —
nothing is emitted. -/
def onConnectEmits : List GatewayMsg := []

/-- Unicast emissions of each registered event handler, from
`sockets/index.js` (join/leave/get_viewers) and `bid.socket.js`
(BID_PLACED, GET_BID_HISTORY).  `viewers` abstracts the room-size lookup;
the bid outcome is abstracted by the rejection code carried in the
event. -/
def handleClientEvent (viewers : ℕ) : ClientEvent → List GatewayMsg
  | .joinRoom none => [.errorMsg "INVALID_AUCTION_ID"]
  | .joinRoom (some aid) => [.auctionJoined aid, .viewerJoined aid viewers]
  | .leaveRoom none => []
  | .leaveRoom (some aid) => [.auctionLeft aid, .viewerLeft aid viewers]
  | .getViewers aid => [.viewerCount aid viewers]
  | .bidPlaced aid none => [.bidAccepted aid]
  | .bidPlaced aid (some code) => [.bidRejected aid code]
  | .getBidHistory aid => [.bidHistory aid]

/-- All messages the gateway emits to one connection across its life:
the connect-time prefix followed by the per-event responses. -/
def gatewayEmits (viewers : ℕ) (events : List ClientEvent) :
    List GatewayMsg :=
  onConnectEmits ++ events.flatMap (handleClientEvent viewers)

/-- Recognizer for `SERVER_TIME` messages. -/
def isServerTimeMsg : GatewayMsg → Bool
  | .serverTime _ => true
  | _ => false

/-! ## Bid service orchestration (`bid.service.js` / `auction.service.js`) -/

/-- Outcome surfaced by `BidService.placeBid` to the socket layer. -/
inductive ServiceOutcome where
  | accepted (amount : ℚ) (totalBids : ℤ)
  | rejected (errorCode : String)
  | httpError (code : String)
  | rateLimited
  deriving Repr, DecidableEq

/-- Translation of `BidService.getErrorCode`: Lua status → error-code string (an unknown
status — including 1 — maps to `UNKNOWN_ERROR`). -/
def getErrorCode : BidResult → String
  | .tooLow _ _ _ _ => "BID_TOO_LOW"
  | .ended _ _ => "AUCTION_ENDED"
  | .notFound => "AUCTION_NOT_FOUND"
  | .notActive _ => "AUCTION_NOT_ACTIVE"
  | .sellerCannotBid => "SELLER_CANNOT_BID"
  | .invalidAmount => "INVALID_BID_AMOUNT"
  | .ok _ _ _ _ _ => "UNKNOWN_ERROR"

/-- Map a Lua result to the service outcome (`result.status !== 1` →
failure with `getErrorCode`). -/
def outcomeOf : BidResult → ServiceOutcome
  | .ok amt _ tb _ _ => .accepted amt tb
  | r => .rejected (getErrorCode r)

/-- Translation of `AuctionService.loadAuctionToRedis`: refuses to install an auction
whose TTL `endTime − now` is not positive; otherwise writes the hash
fields (`current_bid` falling back to the starting price, missing highest
bidder stored as `''`), adds the auction to `auctions:active` with score
`endTime`, and sets expiry `ttl + 86400` seconds from now (absolute time
`endTime + 86400`).  The finalization-job scheduling it also performs is
outside this state model. -/
def loadAuctionToRedis (hot : RedisState) (auction : ColdAuctionRow)
    (now : ℤ) : RedisState :=
  let endTime := auction.end_time
  if endTime - now ≤ 0 then hot
  else
    { hot with
      auction := some
        { id := auction.id
          status := auction.status
          seller_id := auction.seller_id
          starting_price := auction.starting_price
          current_bid := some (auction.current_bid.getD auction.starting_price)
          bid_increment := some auction.bid_increment
          highest_bidder_id := some (auction.highest_bidder_id.getD "")
          total_bids := auction.total_bids
          end_time := endTime }
      activeIdx := zaddIdx hot.activeIdx endTime auction.id
      auctionExpiry := some (endTime + 86400) }

/-- Translation of `BidService.placeBid` up to the admission decision: the rate gate,
the first Lua call with increment hint `''`, and on `NOT_FOUND` the lazy
hydration from the cold row followed by exactly one retry with the cold
row's `bid_increment` as the hint.  (The post-acceptance persistence
queueing, extension check and pub/sub publish do not affect the admission
outcome.) -/
def servicePlaceBid (hot : RedisState) (coldRow : Option ColdAuctionRow)
    (amount : ℚ) (bidderId : String) (now : ℤ) (rateLimitOk : Bool) :
    RedisState × ServiceOutcome :=
  if rateLimitOk = false then (hot, .rateLimited)
  else
    let first := placeBid hot (some amount) bidderId now none
    match first.2 with
    | .notFound =>
      match coldRow with
      | none => (first.1, .httpError "AUCTION_NOT_FOUND")
      | some row =>
        let hot2 := loadAuctionToRedis first.1 row now
        let retry := placeBid hot2 (some amount) bidderId now
          (some row.bid_increment)
        (retry.1, outcomeOf retry.2)
    | r => (first.1, outcomeOf r)

/-- Returns `true` for the two success statuses (1: finalized with winner,
0: ended with no bids) of the finalization script. -/
def isFinalizeSuccess : FinalizeResult → Bool
  | .finalized _ _ _ _ => true
  | .endedNoBids _ => true
  | _ => false

/-- Run a sequence of finalize calls (one per trigger firing), threading
the state and collecting the results. -/
def runFinalizes (s : RedisState) : List ℤ → RedisState × List FinalizeResult
  | [] => (s, [])
  | t :: ts =>
    let step := finalizeAuction s t
    let rest := runFinalizes step.1 ts
    (rest.1, step.2 :: rest.2)

/-! ## Concrete instances (used by the witness theorems) -/

/-- A live auction that already has a highest bidder. -/
def cAuction : AuctionHash :=
  { id := "A", status := "active", seller_id := "S", starting_price := 100,
    current_bid := some 100, bid_increment := some 5,
    highest_bidder_id := some "U1", total_bids := 1, end_time := 1000 }

/-- Hot state holding `cAuction` indexed under its end time. -/
def cState : RedisState :=
  { auction := some cAuction, bids := [], bidsExpiry := none,
    auctionExpiry := none, activeIdx := [("A", 1000)] }

/-- A freshly hydrated auction with no bids yet (empty highest bidder). -/
def freshAuction : AuctionHash :=
  { cAuction with
    highest_bidder_id := some ""
    current_bid := some 100
    total_bids := 0 }

/-- Hot state holding `freshAuction`. -/
def freshState : RedisState :=
  { cState with auction := some freshAuction }

/-- State of `cAuction` after finalization. -/
def endedAuction : AuctionHash :=
  { cAuction with status := "ended" }

/-- Hot state holding `endedAuction`. -/
def endedState : RedisState :=
  { cState with auction := some endedAuction }

/-- Hot state with no record for the auction. -/
def emptyHot : RedisState :=
  { auction := none, bids := [], bidsExpiry := none, auctionExpiry := none,
    activeIdx := [] }

/-- A cold `auctions` row whose auction already expired (end time in the
past relative to the times used below). -/
def staleColdRow : ColdAuctionRow :=
  { id := "A", seller_id := "S", starting_price := 100,
    current_bid := some 100, bid_increment := 5,
    highest_bidder_id := some "U1", total_bids := 1, start_time := 0,
    end_time := 1000, original_end_time := 1000, status := "active" }

/-- A cold `auctions` row already finalized (`status = 'ended'`). -/
def endedColdRow : ColdAuctionRow :=
  { staleColdRow with status := "ended" }

/-- An empty cold store holding only the ended row. -/
def cColdState : ColdState :=
  { auctionRow := some endedColdRow, bids := [], nextBidId := 0 }

/-- The persist-bid payload for an accepted 105 bid by U2 (as the service
enqueues it — no `bidId`). -/
def cPersistJob : PersistBidJob :=
  enqueuedPersistBidJob "A" "U2" 105 910 (some 100) 2
    (some "198.51.100.7") (some "Mozilla/5.0")

/-- An auction-mirror job carrying the post-bid values. -/
def cUpdateJob : AuctionUpdateJob :=
  { auctionId := "A", currentBid := 105, highestBidderId := some "U2",
    totalBids := 2, endTime := none }

/-! # Structural lemmas about `placeBid` -/

/-- Lemma: `place-bid.lua` decomposes into its validation phase followed by (on
success only) its write phase. -/
theorem placeBid_decomp (s : RedisState) (am : Option ℚ) (b : String)
    (t : ℤ) (hint : Option ℚ) :
    placeBid s am b t hint =
      (match s.auction with
       | none => (s, .notFound)
       | some a =>
         match bidDecision a am b t hint with
         | .ok amt hb tb pb pbid =>
             (commitBid s a amt b t, .ok amt hb tb pb pbid)
         | r => (s, r)) := by
  obtain ⟨auct, bids, be, ae, idx⟩ := s
  unfold placeBid bidDecision commitBid minimumBidOf currentBidOf
    isFirstBidOf effIncrementOf
  cases auct with
  | none => rfl
  | some a =>
    cases am with
    | none => cases hint <;> rfl
    | some m =>
      cases hint with
      | none =>
        dsimp only
        split_ifs <;> rfl
      | some i =>
        dsimp only
        split_ifs <;> rfl

/-- Every non-OK return of `place-bid.lua` happens before any write; the
state is returned untouched. -/
theorem placeBid_reject_noop (s : RedisState) (am : Option ℚ) (b : String)
    (t : ℤ) (hint : Option ℚ)
    (hno : isOkResult (placeBid s am b t hint).2 = false) :
    (placeBid s am b t hint).1 = s := by
  revert hno
  rw [placeBid_decomp]
  cases hs : s.auction with
  | none => intro _; rfl
  | some a =>
    dsimp only
    cases hd : bidDecision a am b t hint <;> simp [isOkResult]

/-- Characterization of a successful `placeBid`: the decision phase
returned the same OK payload and the new state is the committed one. -/
theorem placeBid_ok_inv (s : RedisState) (a : AuctionHash) (am : Option ℚ)
    (b : String) (t : ℤ) (hint : Option ℚ) (amt : ℚ) (hb : String)
    (tb : ℤ) (pb : ℚ) (pbid : Option String)
    (hs : s.auction = some a)
    (hr : (placeBid s am b t hint).2 = .ok amt hb tb pb pbid) :
    bidDecision a am b t hint = .ok amt hb tb pb pbid ∧
    (placeBid s am b t hint).1 = commitBid s a amt b t := by
  rw [placeBid_decomp, hs] at hr ⊢
  dsimp only at hr ⊢
  cases hd : bidDecision a am b t hint <;> simp_all

/-- The payload facts carried by a successful decision. -/
theorem bidDecision_ok_facts (a : AuctionHash) (am : Option ℚ)
    (b : String) (t : ℤ) (hint : Option ℚ) (amt : ℚ) (hb : String)
    (tb : ℤ) (pb : ℚ) (pbid : Option String)
    (hd : bidDecision a am b t hint = .ok amt hb tb pb pbid) :
    am = some amt ∧ hb = b ∧ tb = a.total_bids + 1 ∧
    pb = currentBidOf a ∧ pbid = a.highest_bidder_id ∧
    0 < amt ∧ a.status = "active" ∧ t < a.end_time ∧ b ≠ a.seller_id ∧
    minimumBidOf a hint ≤ amt := by
  unfold bidDecision at hd
  cases am with
  | none => exact absurd hd (by simp)
  | some m =>
    revert hd
    dsimp only
    split_ifs with h1 h2 h3 h4 h5 <;> intro hd <;> cases hd
    exact ⟨rfl, rfl, rfl, rfl, rfl, lt_of_not_le h1, by simpa using h2,
      lt_of_not_le h3, h4, le_of_not_lt h5⟩

/-! # C1 — placeBid against the spec's P1 -/

/-- C1 counterexample: the claim says a non-finite amount is rejected with
INVALID_AMOUNT, but the script's only amount check is
`not bidAmount or bidAmount <= 0`. Lua's `tonumber('Infinity')` is `inf`,
which passes that check, and the IEEE comparison `inf < minimumBid` is
false, so on the concrete active auction `cAuction` (current bid 100,
increment 5, bidder U2 at time 910) an `Infinity` bid reaches the OK
branch instead of INVALID_AMOUNT. -/
theorem placeBid_nonfinite_counterexample :
    bidDecisionL cAuction (some .inf) "U2" 910 none
      = .ok .inf "U2" 2 100 (some "U1")
    ∧ bidDecisionL cAuction (some .inf) "U2" 910 none
        ≠ .invalidAmount :=
  ⟨by with_unfolding_all decide, by with_unfolding_all decide⟩

/-- C1 amended: `placeBid` equals the spec's P1 reference definition on
every hot-store state and every amount that fails to parse or parses to a
finite number — same check order, minimumBid formula, writes and OK
payload; in particular, on an existing active auction a bid exactly equal
to `currentBid + bidIncrement` is accepted, and a bid at
`serverTime = endTime` is rejected with ENDED. Over the full Lua number
domain, however, the validation phase `bidDecisionL` agrees with
`bidDecision` only on unparseable, finite and `-Infinity` amounts
(conjuncts 4 and 5): a parsed `Infinity` or `NaN` passes every check of an
open auction and is accepted (conjunct 6), because the INVALID_AMOUNT test
is only `amount <= 0`, not `amount <= 0 or not finite`. -/
theorem placeBid_matches_spec_P1_amended :
    (∀ (s : RedisState) (amount : Option ℚ) (bidderId : String) (t : ℤ)
        (hint : Option ℚ),
      placeBid s amount bidderId t hint
        = placeBidSpec s amount bidderId t hint)
    ∧
    (∀ (s : RedisState) (a : AuctionHash) (inc : ℚ) (bidderId : String)
        (t : ℤ),
      s.auction = some a →
      a.status = "active" →
      t < a.end_time →
      bidderId ≠ a.seller_id →
      isFirstBidOf a = false →
      a.bid_increment = some inc →
      0 < currentBidOf a + inc →
      (placeBid s (some (currentBidOf a + inc)) bidderId t none).2
        = .ok (currentBidOf a + inc) bidderId (a.total_bids + 1)
            (currentBidOf a) a.highest_bidder_id)
    ∧
    (∀ (s : RedisState) (a : AuctionHash) (m : ℚ) (bidderId : String)
        (hint : Option ℚ),
      s.auction = some a →
      a.status = "active" →
      0 < m →
      (placeBid s (some m) bidderId a.end_time hint).2
        = .ended a.end_time a.end_time)
    ∧
    (∀ (a : AuctionHash) (q : ℚ) (b : String) (t : ℤ) (hint : Option ℚ),
      bidDecisionL a (some (.num q)) b t hint
        = liftBidResult (bidDecision a (some q) b t hint))
    ∧
    (∀ (a : AuctionHash) (b : String) (t : ℤ) (hint : Option ℚ),
      bidDecisionL a none b t hint = .invalidAmount
      ∧ bidDecisionL a (some .negInf) b t hint = .invalidAmount)
    ∧
    (∀ (a : AuctionHash) (b : String) (t : ℤ) (hint : Option ℚ),
      a.status = "active" → t < a.end_time → b ≠ a.seller_id →
      bidDecisionL a (some .inf) b t hint
        = .ok .inf b (a.total_bids + 1) (currentBidOf a)
            a.highest_bidder_id
      ∧ bidDecisionL a (some .nan) b t hint
          = .ok .nan b (a.total_bids + 1) (currentBidOf a)
              a.highest_bidder_id) := by
  refine ⟨?_, ?_, ?_, ?_, ?_, ?_⟩
  · intro s amount bidderId t hint
    unfold placeBid placeBidSpec minimumBidOf currentBidOf isFirstBidOf
      effIncrementOf
    rfl
  · intro s a inc bidderId t hs hst ht hseller hfirst hinc hpos
    simp only [isFirstBidOf] at hfirst
    simp only [currentBidOf] at hpos ⊢
    unfold placeBid
    rw [hs]
    simp [hst, hinc, hfirst, not_le.mpr hpos, not_le.mpr ht, hseller]
  · intro s a m bidderId hint hs hst hm
    unfold placeBid
    rw [hs]
    simp [hst, not_le.mpr hm, le_refl]
  · intro a q b t hint
    unfold bidDecisionL bidDecision liftBidResult
    dsimp only [LuaNum.leZero, LuaNum.ltQ]
    simp only [decide_eq_true_eq]
    split_ifs <;> rfl
  · intro a b t hint
    refine ⟨rfl, ?_⟩
    unfold bidDecisionL
    dsimp only [LuaNum.leZero]
    rw [if_pos rfl]
  · intro a b t hint hst ht hsell
    constructor <;>
      · unfold bidDecisionL
        dsimp only [LuaNum.leZero, LuaNum.ltQ]
        rw [if_neg (by decide), if_neg (by simp [hst]),
          if_neg (not_le.mpr ht), if_neg hsell, if_neg (by decide)]

/-- Witness for C1 at concrete inputs: the refinement at one call; the
acceptance of a bid exactly `currentBid + bidIncrement` (105 against
current 100, increment 5); the ENDED rejection at
`serverTime = endTime = 1000`; and the acceptance of a `NaN` bid on the
same open auction. -/
theorem placeBid_matches_spec_P1_amended_witness :
    (placeBid cState (some 105) "U2" 910 none
      = placeBidSpec cState (some 105) "U2" 910 none)
    ∧ (placeBid cState (some (currentBidOf cAuction + 5)) "U2" 910 none).2
        = .ok (currentBidOf cAuction + 5) "U2" (cAuction.total_bids + 1)
            (currentBidOf cAuction) cAuction.highest_bidder_id
    ∧ (placeBid cState (some 105) "U2" cAuction.end_time none).2
        = .ended cAuction.end_time cAuction.end_time
    ∧ bidDecisionL cAuction (some .nan) "U2" 910 none
        = .ok .nan "U2" (cAuction.total_bids + 1) (currentBidOf cAuction)
            cAuction.highest_bidder_id :=
  ⟨placeBid_matches_spec_P1_amended.1 cState (some 105) "U2" 910 none,
    placeBid_matches_spec_P1_amended.2.1 cState cAuction 5 "U2" 910 rfl rfl
      (by decide) (by decide) (by decide) rfl (by with_unfolding_all decide),
    placeBid_matches_spec_P1_amended.2.2.1 cState cAuction 105 "U2" none
      rfl rfl (by decide),
    (placeBid_matches_spec_P1_amended.2.2.2.2.2 cAuction "U2" 910 none rfl
      (by decide) (by decide)).2⟩

/-! # C4 — rejection atomicity -/

/-- C4: whenever `placeBid` returns a non-OK status (NOT_FOUND,
INVALID_AMOUNT, NOT_ACTIVE, ENDED, SELLER_CANNOT_BID or TOO_LOW), the
whole per-auction Redis slice — the auction hash, the bid-history sorted
set, the TTLs and the active-auctions index — is returned completely
unchanged. -/
theorem placeBid_rejection_atomic (s : RedisState) (am : Option ℚ)
    (b : String) (t : ℤ) (hint : Option ℚ)
    (hno : isOkResult (placeBid s am b t hint).2 = false) :
    (placeBid s am b t hint).1 = s :=
  placeBid_reject_noop s am b t hint hno

/-- Witness for C4: a TOO_LOW bid (102 < 100 + 5) leaves the concrete
state untouched. -/
theorem placeBid_rejection_atomic_witness :
    isOkResult (placeBid cState (some 102) "U2" 910 none).2 = false
    ∧ (placeBid cState (some 102) "U2" 910 none).1 = cState :=
  ⟨by with_unfolding_all decide,
    placeBid_rejection_atomic cState (some 102) "U2" 910 none
      (by with_unfolding_all decide)⟩

/-! # C5 — extension semantics -/

/-- Score of a freshly ZADDed member. -/
theorem idxScore_zadd (idx : List (String × ℤ)) (sc : ℤ) (m : String) :
    idxScore (zaddIdx idx sc m) m = some sc := by
  simp [idxScore, zaddIdx]

/-- C5: on an existing active auction, a qualifying extend call
(`0 < endTime − serverTime ≤ threshold`) adds exactly `duration` to the
end time, updates the active-auctions index entry to the new end time and
reports `{extended, oldEndTime, newEndTime, extendedBy}`; a
non-qualifying call changes nothing and reports
`{not-extended, endTime, timeRemaining}`; and with positive duration no
extend call ever decreases the end time. -/
theorem extend_semantics :
    (∀ (s : RedisState) (a : AuctionHash) (t th d : ℤ),
      s.auction = some a → a.status = "active" →
      ((0 < a.end_time - t ∧ a.end_time - t ≤ th) →
        extendAuction s t th d =
          ({ s with
              auction := some { a with end_time := a.end_time + d }
              activeIdx := zaddIdx s.activeIdx (a.end_time + d) a.id
              auctionExpiry := some (a.end_time + d + 86400) },
           .extended a.end_time (a.end_time + d) d (a.end_time - t)) ∧
        idxScore (extendAuction s t th d).1.activeIdx a.id
          = some (a.end_time + d)) ∧
      (¬(0 < a.end_time - t ∧ a.end_time - t ≤ th) →
        extendAuction s t th d = (s, .notExtended a.end_time (a.end_time - t))))
    ∧
    (∀ (s : RedisState) (a : AuctionHash) (t th d : ℤ), 0 < d →
      s.auction = some a →
      ∃ a', (extendAuction s t th d).1.auction = some a' ∧
        a.end_time ≤ a'.end_time) := by
  constructor
  · intro s a t th d hs hst
    constructor
    · intro hq
      have he : extendAuction s t th d =
          ({ s with
              auction := some { a with end_time := a.end_time + d }
              activeIdx := zaddIdx s.activeIdx (a.end_time + d) a.id
              auctionExpiry := some (a.end_time + d + 86400) },
           .extended a.end_time (a.end_time + d) d (a.end_time - t)) := by
        unfold extendAuction
        rw [hs]
        dsimp only
        split_ifs with g1
        · exact absurd hst g1
        · rfl
      exact ⟨he, by rw [he]; exact idxScore_zadd _ _ _⟩
    · intro hq
      unfold extendAuction
      rw [hs]
      dsimp only
      split_ifs with g1
      · exact absurd hst g1
      · rfl
  · intro s a t th d hd hs
    by_cases hact : a.status = "active"
    · by_cases hq : 0 < a.end_time - t ∧ a.end_time - t ≤ th
      · refine ⟨{ a with end_time := a.end_time + d }, ?_, ?_⟩
        · unfold extendAuction
          rw [hs]
          dsimp only
          split_ifs with g1
          · exact absurd hact g1
          · rfl
        · exact le_add_of_nonneg_right hd.le
      · refine ⟨a, ?_, le_refl _⟩
        unfold extendAuction
        rw [hs]
        dsimp only
        split_ifs with g1
        · exact hs
        · exact hs
    · refine ⟨a, ?_, le_refl _⟩
      unfold extendAuction
      rw [hs]
      dsimp only
      split_ifs with g1
      · exact hs
      · exact hs

/-- Witness for C5: at 15 seconds remaining with threshold 30 the
concrete auction is extended from 1000 to 1030 with the index entry
updated; at 100 seconds remaining nothing changes. -/
theorem extend_semantics_witness :
    extendAuction cState 985 30 30
      = ({ cState with
            auction := some { cAuction with end_time := 1030 }
            activeIdx := zaddIdx cState.activeIdx 1030 "A"
            auctionExpiry := some 87430 },
         .extended 1000 1030 30 15)
    ∧ extendAuction cState 900 30 30 = (cState, .notExtended 1000 100) := by
  have h1 := (extend_semantics.1 cState cAuction 985 30 30 rfl rfl).1
    (by decide)
  have h2 := (extend_semantics.1 cState cAuction 900 30 30 rfl rfl).2
    (by decide)
  constructor
  · rw [h1.1]; decide
  · rw [h2]; decide

/-! # C3 — ended is terminal, finalize is exactly-once -/

/-- A finalize call on an already-ended auction is a pure no-op returning
ALREADY_FINAL (the guard precedes every write, including the time
check). -/
theorem finalize_ended_noop (s : RedisState) (a : AuctionHash) (t : ℤ)
    (hs : s.auction = some a) (hst : a.status = "ended") :
    finalizeAuction s t = (s, .alreadyFinal "ended") := by
  unfold finalizeAuction
  rw [hs]
  dsimp only
  rw [if_pos hst, hst]

/-- Any sequence of finalize calls on an ended auction is a no-op
sequence. -/
theorem runFinalizes_ended (ts : List ℤ) (s : RedisState)
    (a : AuctionHash) (hs : s.auction = some a)
    (hst : a.status = "ended") :
    runFinalizes s ts = (s, ts.map (fun _ => .alreadyFinal "ended")) := by
  induction ts with
  | nil => rfl
  | cons t ts ih =>
    unfold runFinalizes
    rw [finalize_ended_noop s a t hs hst]
    dsimp only
    rw [ih]
    rfl

/-- The first finalize call on an existing active auction at or past its
end time succeeds: it flips the status to ended, removes the auction from
the active index and stamps the retention expiry. -/
theorem finalize_active_done (s : RedisState) (a : AuctionHash) (t : ℤ)
    (hs : s.auction = some a) (hst : a.status = "active")
    (hT : a.end_time ≤ t) :
    (finalizeAuction s t).1 =
      { s with
        auction := some { a with status := "ended" }
        activeIdx := zremIdx s.activeIdx a.id
        auctionExpiry := some (t + 86400) }
    ∧ isFinalizeSuccess (finalizeAuction s t).2 = true := by
  unfold finalizeAuction
  rw [hs]
  dsimp only
  rw [if_neg (by rw [hst]; decide), if_neg (not_lt.mpr hT)]
  cases a.highest_bidder_id with
  | none => exact ⟨rfl, rfl⟩
  | some w =>
    dsimp only
    by_cases hb : 0 < a.total_bids
    · rw [if_pos hb]
      exact ⟨rfl, rfl⟩
    · rw [if_neg hb]
      exact ⟨rfl, rfl⟩

/-- C3: `status = ended` is terminal and finalize is exactly-once.  On an
ended auction every primitive is a pure no-op: finalize returns
ALREADY_FINAL, and `placeBid` (with a valid amount) and `extendAuction`
return NOT_ACTIVE, none of them changing the state.  Consequently, for a
sequence of finalize calls on an existing active auction whose first call
is at or past the end time, the first call succeeds — flipping the status
to ended and removing the auction from the active-auctions index — and
every subsequent call returns ALREADY_FINAL and is a no-op, so exactly
one call succeeds. -/
theorem ended_terminal_finalize_exactly_once :
    (∀ (s : RedisState) (a : AuctionHash) (t : ℤ),
      s.auction = some a → a.status = "ended" →
      finalizeAuction s t = (s, .alreadyFinal "ended"))
    ∧
    (∀ (s : RedisState) (a : AuctionHash) (m : ℚ) (b : String) (t : ℤ)
        (hint : Option ℚ),
      s.auction = some a → a.status = "ended" → 0 < m →
      placeBid s (some m) b t hint = (s, .notActive "ended"))
    ∧
    (∀ (s : RedisState) (a : AuctionHash) (t th d : ℤ),
      s.auction = some a → a.status = "ended" →
      extendAuction s t th d = (s, .notActive "ended"))
    ∧
    (∀ (s : RedisState) (a : AuctionHash) (t1 : ℤ) (ts : List ℤ),
      s.auction = some a → a.status = "active" → a.end_time ≤ t1 →
      (runFinalizes s (t1 :: ts)).2.countP
          (fun r => isFinalizeSuccess r) = 1
      ∧ (∀ r ∈ (runFinalizes s (t1 :: ts)).2.tail,
          r = .alreadyFinal "ended")
      ∧ (runFinalizes s (t1 :: ts)).1 =
          { s with
            auction := some { a with status := "ended" }
            activeIdx := zremIdx s.activeIdx a.id
            auctionExpiry := some (t1 + 86400) }) := by
  refine ⟨finalize_ended_noop, ?_, ?_, ?_⟩
  · intro s a m b t hint hs hst hm
    rw [placeBid_decomp, hs]
    dsimp only
    have hd : bidDecision a (some m) b t hint = .notActive "ended" := by
      unfold bidDecision
      dsimp only
      rw [if_neg (not_le.mpr hm), if_pos (by rw [hst]; decide), hst]
    rw [hd]
  · intro s a t th d hs hst
    unfold extendAuction
    rw [hs]
    dsimp only
    rw [if_pos (by rw [hst]; decide), hst]
  · intro s a t1 ts hs hst hT
    have h1 := finalize_active_done s a t1 hs hst hT
    have hs1 : (finalizeAuction s t1).1.auction
        = some { a with status := "ended" } := by rw [h1.1]
    have h2 := runFinalizes_ended ts (finalizeAuction s t1).1
      { a with status := "ended" } hs1 rfl
    have hrun : runFinalizes s (t1 :: ts) =
        ((finalizeAuction s t1).1,
          (finalizeAuction s t1).2 ::
            ts.map (fun _ => .alreadyFinal "ended")) := by
      unfold runFinalizes
      dsimp only
      rw [h2]
    refine ⟨?_, ?_, ?_⟩
    · rw [hrun]
      have hzero : (ts.map
          (fun _ => FinalizeResult.alreadyFinal "ended")).countP
            (fun r => isFinalizeSuccess r) = 0 := by
        rw [List.countP_eq_zero]
        intro r hr
        obtain ⟨t', ht', rfl⟩ := List.mem_map.mp hr
        decide
      simp [List.countP_cons, h1.2, hzero]
      intro _
      rfl
    · rw [hrun]
      dsimp only [List.tail_cons]
      intro r hr
      obtain ⟨t', ht', rfl⟩ := List.mem_map.mp hr
      rfl
    · rw [hrun]
      exact h1.1

/-- Witness for C3: on the concrete ended auction finalize, placeBid and
extend are all no-ops with the stated results, and a finalize sequence at
times 1001, 1002, 1003 on the live auction (end time 1000) has exactly
one success. -/
theorem ended_terminal_finalize_exactly_once_witness :
    finalizeAuction endedState 1500 = (endedState, .alreadyFinal "ended")
    ∧ placeBid endedState (some 105) "U2" 900 none
        = (endedState, .notActive "ended")
    ∧ extendAuction endedState 990 30 30 = (endedState, .notActive "ended")
    ∧ (runFinalizes cState [1001, 1002, 1003]).2.countP
        (fun r => isFinalizeSuccess r) = 1 :=
  ⟨ended_terminal_finalize_exactly_once.1 endedState endedAuction 1500
      rfl rfl,
    ended_terminal_finalize_exactly_once.2.1 endedState endedAuction 105
      "U2" 900 none rfl rfl (by decide),
    ended_terminal_finalize_exactly_once.2.2.1 endedState endedAuction
      990 30 30 rfl rfl,
    (ended_terminal_finalize_exactly_once.2.2.2 cState cAuction 1001
      [1002, 1003] rfl rfl (by decide)).1⟩

/-! # C2 — monotonic price -/

/-- Unfolding of `acceptedAmounts` on a cons. -/
theorem acceptedAmounts_cons (s : RedisState) (c : BidCall)
    (cs : List BidCall) :
    acceptedAmounts s (c :: cs) =
      (match (placeBid s c.amount c.bidderId c.time c.incrHint).2 with
       | .ok amt _ _ _ _ =>
           amt :: acceptedAmounts
             (placeBid s c.amount c.bidderId c.time c.incrHint).1 cs
       | _ => acceptedAmounts
           (placeBid s c.amount c.bidderId c.time c.incrHint).1 cs) := by
  conv_lhs => rw [acceptedAmounts]
  cases hp : placeBid s c.amount c.bidderId c.time c.incrHint with
  | mk s' r => cases r <;> rfl

/-- A result recognized by `isOkResult` is an `ok`. -/
theorem isOkResult_true (r : BidResult) (h : isOkResult r = true) :
    ∃ amt hb tb pb pbid, r = .ok amt hb tb pb pbid := by
  cases r <;>
    first
      | exact ⟨_, _, _, _, _, rfl⟩
      | simp [isOkResult] at h

/-- With a non-positive (or absent) hint, the effective increment is the
stored one. -/
theorem effIncrementOf_default (hint : Option ℚ) (stored : ℚ)
    (h : (match hint with
          | some i => decide (i ≤ 0)
          | none => true) = true) :
    effIncrementOf hint (some stored) = stored := by
  cases hint with
  | none => rfl
  | some i =>
    simp only [decide_eq_true_eq] at h
    unfold effIncrementOf
    dsimp only
    rw [if_neg (not_lt.mpr h)]
    rfl

/-- Invariant carried along a run of admission-shaped `placeBid` calls:
the auction keeps its increment, its current bid never decreases, the
accepted amounts climb by at least the stored increment, and the next
accepted amount (if any) sits above the starting current bid. -/
theorem runBids_inv (inc : ℚ) (hpos : 0 < inc) (calls : List BidCall) :
    ∀ (s : RedisState) (a : AuctionHash),
      s.auction = some a →
      a.bid_increment = some inc →
      (∀ c ∈ calls, admissionDefaultCall c = true) →
      (isFirstBidOf a = true → currentBidOf a = a.starting_price) →
      (∃ a', (runBids s calls).auction = some a' ∧
        a'.bid_increment = some inc ∧
        currentBidOf a ≤ currentBidOf a') ∧
      List.Chain' (fun x y => x + inc ≤ y) (acceptedAmounts s calls) ∧
      (∀ y, (acceptedAmounts s calls).head? = some y →
        currentBidOf a ≤ y ∧
        (isFirstBidOf a = false → currentBidOf a + inc ≤ y)) := by
  induction calls with
  | nil =>
    intro s a hs hinc hcalls hwf
    refine ⟨⟨a, hs, hinc, le_refl _⟩, ?_, ?_⟩
    · simp [acceptedAmounts]
    · intro y hy
      simp [acceptedAmounts] at hy
  | cons c cs ih =>
    intro s a hs hinc hcalls hwf
    cases hok : isOkResult (placeBid s c.amount c.bidderId c.time c.incrHint).2 with
    | false =>
      have hstate := placeBid_reject_noop s c.amount c.bidderId c.time
        c.incrHint hok
      have hacc : acceptedAmounts s (c :: cs) = acceptedAmounts s cs := by
        rw [acceptedAmounts_cons]
        cases hr2 : (placeBid s c.amount c.bidderId c.time c.incrHint).2 <;>
          first
            | (dsimp only; rw [hstate]; done)
            | (rw [hr2] at hok; simp [isOkResult] at hok)
      have hrun : runBids s (c :: cs) = runBids s cs := by
        show runBids (placeBid s c.amount c.bidderId c.time c.incrHint).1 cs
          = runBids s cs
        rw [hstate]
      rw [hacc, hrun]
      exact ih s a hs hinc
        (fun c' hc' => hcalls c' (List.mem_cons_of_mem c hc')) hwf
    | true =>
      obtain ⟨amt, hb, tb, pb, pbid, hr⟩ :=
        isOkResult_true _ hok
      have hinv := placeBid_ok_inv s a c.amount c.bidderId c.time c.incrHint
        amt hb tb pb pbid hs hr
      obtain ⟨ham, hhb, htb, hpb, hpbid, hamt0, hstat, htlt, hbsell, hminle⟩ :=
        bidDecision_ok_facts a c.amount c.bidderId c.time c.incrHint
          amt hb tb pb pbid hinv.1
      have hc := hcalls c (List.mem_cons_self c cs)
      unfold admissionDefaultCall at hc
      rw [Bool.and_eq_true] at hc
      have hbne : c.bidderId ≠ "" := by simpa using hc.2
      have heff : effIncrementOf c.incrHint a.bid_increment = inc := by
        rw [hinc]
        exact effIncrementOf_default c.incrHint inc hc.1
      have hs2 : (placeBid s c.amount c.bidderId c.time c.incrHint).1.auction
          = some { a with
              current_bid := some amt
              highest_bidder_id := some c.bidderId
              total_bids := a.total_bids + 1 } := by
        rw [hinv.2]; rfl
      have hfirst2 : isFirstBidOf
          { a with
            current_bid := some amt
            highest_bidder_id := some c.bidderId
            total_bids := a.total_bids + 1 } = false := by
        simp [isFirstBidOf]
        exact hbne
      have hcuramt : currentBidOf a ≤ amt := by
        unfold minimumBidOf at hminle
        by_cases hf : isFirstBidOf a = true
        · rw [if_pos hf] at hminle
          rw [hwf hf]
          exact hminle
        · rw [if_neg hf] at hminle
          rw [heff] at hminle
          linarith
      have hfirstImp : isFirstBidOf a = false → currentBidOf a + inc ≤ amt := by
        intro hf
        unfold minimumBidOf at hminle
        rw [hf] at hminle
        simp only [Bool.false_eq_true, if_false] at hminle
        rw [heff] at hminle
        exact hminle
      obtain ⟨⟨a', ha', hinca', hca'⟩, hchain, hhead⟩ :=
        ih (placeBid s c.amount c.bidderId c.time c.incrHint).1
          { a with
            current_bid := some amt
            highest_bidder_id := some c.bidderId
            total_bids := a.total_bids + 1 }
          hs2 (by simpa using hinc)
          (fun c' hc' => hcalls c' (List.mem_cons_of_mem c hc'))
          (fun h => absurd h (by rw [hfirst2]; decide))
      have hacc : acceptedAmounts s (c :: cs)
          = amt :: acceptedAmounts
              (placeBid s c.amount c.bidderId c.time c.incrHint).1 cs := by
        rw [acceptedAmounts_cons, hr]
      refine ⟨⟨a', ?_, hinca', ?_⟩, ?_, ?_⟩
      · exact ha'
      · exact le_trans hcuramt (le_trans (le_of_eq rfl) hca')
      · rw [hacc]
        rw [List.chain'_cons']
        refine ⟨?_, hchain⟩
        intro y hy
        have := hhead y (by simpa using hy)
        have h2 := this.2 hfirst2
        simpa using h2
      · rw [hacc]
        intro y hy
        simp only [List.head?_cons, Option.some.injEq] at hy
        subst hy
        exact ⟨hcuramt, hfirstImp⟩

/-- C2 (amended): for every auction record with stored `bidIncrement`
`inc > 0` satisfying the documented invariant (`currentBid =
startingPrice` until the first bid) and every sequence of `placeBid`
calls issued the way the Bid Admission Service issues them (no positive
increment hint, non-empty bidder id), the accepted amounts in commit
order are strictly increasing, each accepted amount from the second
onward is at least the previous accepted amount plus `inc`, and the
current bid is monotone non-decreasing; consequently a bid whose amount
equals the current bid on a non-first auction is rejected with TOO_LOW
(payload `{currentBid, currentBid + inc, currentBid, false}`). -/
theorem monotonic_price_amended (s : RedisState) (a : AuctionHash)
    (inc : ℚ) (calls : List BidCall)
    (hs : s.auction = some a)
    (hinc : a.bid_increment = some inc) (hpos : 0 < inc)
    (hcalls : ∀ c ∈ calls, admissionDefaultCall c = true)
    (hwf : isFirstBidOf a = true → currentBidOf a = a.starting_price) :
    List.Chain' (fun x y => x < y) (acceptedAmounts s calls)
    ∧ List.Chain' (fun x y => x + inc ≤ y) (acceptedAmounts s calls)
    ∧ (∃ a', (runBids s calls).auction = some a' ∧
        currentBidOf a ≤ currentBidOf a')
    ∧ (∀ (s2 : RedisState) (a2 : AuctionHash) (b : String) (t : ℤ)
        (hint : Option ℚ),
      s2.auction = some a2 → a2.status = "active" →
      isFirstBidOf a2 = false → a2.bid_increment = some inc →
      (match hint with | some i => decide (i ≤ 0) | none => true) = true →
      t < a2.end_time → b ≠ a2.seller_id → 0 < currentBidOf a2 →
      (placeBid s2 (some (currentBidOf a2)) b t hint).2
        = .tooLow (currentBidOf a2) (currentBidOf a2 + inc)
            (currentBidOf a2) false) := by
  obtain ⟨hex, hchain, _⟩ := runBids_inv inc hpos calls s a hs hinc hcalls hwf
  obtain ⟨a', ha', _, hca'⟩ := hex
  refine ⟨?_, hchain, ⟨a', ha', hca'⟩, ?_⟩
  · exact List.Chain'.imp (fun x y h => by linarith) hchain
  · intro s2 a2 b t hint hs2 hst2 hf2 hinc2 hhint ht2 hbs hcur
    rw [placeBid_decomp, hs2]
    dsimp only
    have hmin : minimumBidOf a2 hint = currentBidOf a2 + inc := by
      unfold minimumBidOf
      rw [hf2]
      simp only [Bool.false_eq_true, if_false]
      rw [hinc2, effIncrementOf_default hint inc hhint]
    have hd : bidDecision a2 (some (currentBidOf a2)) b t hint
        = .tooLow (currentBidOf a2) (currentBidOf a2 + inc)
            (currentBidOf a2) false := by
      unfold bidDecision
      dsimp only
      rw [if_neg (not_le.mpr hcur), if_neg (by simp [hst2]),
        if_neg (not_le.mpr ht2), if_neg hbs, hmin,
        if_pos (by linarith : currentBidOf a2 < currentBidOf a2 + inc),
        hf2]
    rw [hd]

/-- Witness for C2 (amended) on the concrete fresh auction (starting
price 100, stored increment 5) with the admission-shaped calls 100 by U1
then 105 by U2. -/
theorem monotonic_price_amended_witness :
    ((∀ c ∈ [BidCall.mk (some 100) "U1" 900 none,
             BidCall.mk (some 105) "U2" 901 none],
        admissionDefaultCall c = true)
      ∧ (isFirstBidOf freshAuction = true →
          currentBidOf freshAuction = freshAuction.starting_price))
    ∧ (List.Chain' (fun x y => x < y)
        (acceptedAmounts freshState
          [BidCall.mk (some 100) "U1" 900 none,
           BidCall.mk (some 105) "U2" 901 none])
      ∧ List.Chain' (fun x y => x + 5 ≤ y)
        (acceptedAmounts freshState
          [BidCall.mk (some 100) "U1" 900 none,
           BidCall.mk (some 105) "U2" 901 none])
      ∧ (∃ a', (runBids freshState
            [BidCall.mk (some 100) "U1" 900 none,
             BidCall.mk (some 105) "U2" 901 none]).auction = some a' ∧
          currentBidOf freshAuction ≤ currentBidOf a')
      ∧ (∀ (s2 : RedisState) (a2 : AuctionHash) (b : String) (t : ℤ)
          (hint : Option ℚ),
        s2.auction = some a2 → a2.status = "active" →
        isFirstBidOf a2 = false → a2.bid_increment = some 5 →
        (match hint with | some i => decide (i ≤ 0) | none => true) = true →
        t < a2.end_time → b ≠ a2.seller_id → 0 < currentBidOf a2 →
        (placeBid s2 (some (currentBidOf a2)) b t hint).2
          = .tooLow (currentBidOf a2) (currentBidOf a2 + 5)
              (currentBidOf a2) false)) :=
  ⟨⟨by decide, by decide⟩,
    monotonic_price_amended freshState freshAuction 5
      [BidCall.mk (some 100) "U1" 900 none,
       BidCall.mk (some 105) "U2" 901 none]
      rfl rfl (by decide) (by decide) (by decide)⟩

/-- Counterexample to C2 as frozen: over *every* sequence of `placeBid`
calls the claimed bounds fail.  A second call passing the positive
increment hint 1 is accepted at 101 although the stored increment is 5
(so `amount_2 ≥ amount_1 + bidIncrement` fails), and a first call with an
empty bidder id leaves the auction in "first bid" state, letting a second
bid equal to the first be accepted (so strict increase fails). -/
theorem monotonic_price_counterexample :
    freshAuction.bid_increment = some 5
    ∧ acceptedAmounts freshState
        [BidCall.mk (some 100) "U1" 900 none,
         BidCall.mk (some 101) "U2" 901 (some 1)]
        = [100, 101]
    ∧ ¬ ((100 : ℚ) + 5 ≤ 101)
    ∧ acceptedAmounts freshState
        [BidCall.mk (some 100) "" 900 none,
         BidCall.mk (some 100) "U2" 901 none]
        = [100, 100]
    ∧ ¬ ((100 : ℚ) < 100) :=
  ⟨rfl, by with_unfolding_all decide, by with_unfolding_all decide,
    by with_unfolding_all decide, by decide⟩

/-! # C6 — the cold-mirror write has no status guard -/

/-- C6 evaluation (the claim fails on the code):
`AuctionRepository.update` filters on the id alone, so the mirror job
rewrites the mutable columns of a row whose status is `'ended'` — the row
does not stay unchanged. -/
theorem mirror_update_overwrites_ended_row :
    endedColdRow.status = "ended"
    ∧ processAuctionUpdate (some endedColdRow) cUpdateJob
        = some { endedColdRow with
            current_bid := some 105
            highest_bidder_id := some "U2"
            total_bids := 2 }
    ∧ processAuctionUpdate (some endedColdRow) cUpdateJob
        ≠ some endedColdRow :=
  ⟨rfl, by decide, by decide⟩

/-! # C7 — persist-bid redelivery is not idempotent -/

/-- C7 evaluation (the claim fails on the code): the service enqueues
persist-bid jobs without a `bidId`, so the worker's only idempotency
check never fires; delivering the same payload twice appends two rows to
the append-only `bids` table. -/
theorem persist_bid_redelivery_duplicates :
    cPersistJob.bidId = none
    ∧ (processBidPersistence cColdState cPersistJob).bids.length = 1
    ∧ (processBidPersistence
        (processBidPersistence cColdState cPersistJob)
        cPersistJob).bids.length = 2 :=
  ⟨rfl, by decide, by decide⟩

/-! # C8 — the admission arithmetic is binary floating point -/

/-- C8 evaluation (the claim fails on the code): with stored values
`currentBid = 0.10`, `bidIncrement = 0.20` and the bid `0.30` — all exact
two-decimal amounts — the double arithmetic `place-bid.lua` actually
performs (Lua `tonumber` and `+` are IEEE-754 binary64) computes
`minimumBid = 0.30000000000000004` and rejects the bid, while exact
rational arithmetic accepts it, as does the exact-rational reference
model of the script. -/
theorem admission_arith_float_rounding_bug :
    luaBidAdmits (mkRat 1 10) (mkRat 2 10) (mkRat 3 10) = false
    ∧ exactBidAdmits (mkRat 1 10) (mkRat 2 10) (mkRat 3 10) = true
    ∧ (placeBid
        { cState with
          auction := some
            { cAuction with
              current_bid := some (mkRat 1 10)
              bid_increment := some (mkRat 2 10) } }
        (some (mkRat 3 10)) "U2" 910 none).2
        = .ok (mkRat 3 10) "U2" 2 (mkRat 1 10) (some "U1") :=
  ⟨by decide, by with_unfolding_all decide, by with_unfolding_all decide⟩

/-! # C9 — the gateway never sends SERVER_TIME -/

/-- C9 evaluation (the claim fails on the code): the connection handler
emits nothing at connect time, and no event handler of the gateway ever
emits a `SERVER_TIME` message — on no connection trace does the client
receive one. -/
theorem gateway_never_sends_server_time :
    onConnectEmits = []
    ∧ ∀ (viewers : ℕ) (events : List ClientEvent) (t : ℤ),
        GatewayMsg.serverTime t ∉ gatewayEmits viewers events := by
  refine ⟨rfl, ?_⟩
  intro v evs t hmem
  unfold gatewayEmits onConnectEmits at hmem
  rw [List.nil_append, List.mem_flatMap] at hmem
  obtain ⟨e, he, hmem⟩ := hmem
  cases e with
  | joinRoom aid => cases aid <;> simp [handleClientEvent] at hmem
  | leaveRoom aid => cases aid <;> simp [handleClientEvent] at hmem
  | getViewers aid => simp [handleClientEvent] at hmem
  | bidPlaced aid rc => cases rc <;> simp [handleClientEvent] at hmem
  | getBidHistory aid => simp [handleClientEvent] at hmem

/-- Witness for C9 at a concrete trace: a join, a bid and a history
request produce no SERVER_TIME. -/
theorem gateway_never_sends_server_time_witness :
    GatewayMsg.serverTime 1738000000
      ∉ gatewayEmits 3
          [ClientEvent.joinRoom (some "A"),
           ClientEvent.bidPlaced "A" none,
           ClientEvent.getBidHistory "A"] :=
  gateway_never_sends_server_time.2 3
    [ClientEvent.joinRoom (some "A"),
     ClientEvent.bidPlaced "A" none,
     ClientEvent.getBidHistory "A"] 1738000000

/-! # C10 — stale cold row: NOT_FOUND, not ENDED -/

/-- C10: when the hot record is absent and the cold row's end time lies
in the past, `loadAuctionToRedis` refuses to install the auction
(ttl ≤ 0), the single admission retry hits NOT_FOUND again, and the
service surfaces AUCTION_NOT_FOUND (never AUCTION_ENDED) with the hot
store untouched. -/
theorem stale_hydration_not_found (hot : RedisState)
    (row : ColdAuctionRow) (amount : ℚ) (b : String) (now : ℤ)
    (hhot : hot.auction = none) (hstale : row.end_time < now) :
    loadAuctionToRedis hot row now = hot
    ∧ servicePlaceBid hot (some row) amount b now true
        = (hot, .rejected "AUCTION_NOT_FOUND") := by
  have hnf : ∀ hint, placeBid hot (some amount) b now hint
      = (hot, .notFound) := by
    intro hint
    rw [placeBid_decomp, hhot]
  have hload : loadAuctionToRedis hot row now = hot := by
    unfold loadAuctionToRedis
    rw [if_pos (by linarith)]
  refine ⟨hload, ?_⟩
  unfold servicePlaceBid
  rw [if_neg (by decide : ¬(true = false))]
  dsimp only
  rw [hnf none]
  dsimp only
  rw [hload, hnf (some row.bid_increment)]
  rfl

/-- Witness for C10: the empty hot store, the stale cold row (end time
1000) and a bid at time 2000. -/
theorem stale_hydration_not_found_witness :
    emptyHot.auction = none ∧ staleColdRow.end_time < 2000
    ∧ loadAuctionToRedis emptyHot staleColdRow 2000 = emptyHot
    ∧ servicePlaceBid emptyHot (some staleColdRow) 105 "U2" 2000 true
        = (emptyHot, .rejected "AUCTION_NOT_FOUND") :=
  ⟨rfl, by decide,
    (stale_hydration_not_found emptyHot staleColdRow 105 "U2" 2000 rfl
      (by decide)).1,
    (stale_hydration_not_found emptyHot staleColdRow 105 "U2" 2000 rfl
      (by decide)).2⟩

end LiveBidding
